import Mathlib

/-!
Verification of the gstzrtp SRTP/SRTCP wrapper and ZRTP filter adapter.

The development shallowly embeds the C sources of the repository:
* `gstSrtpCWrapper.cpp` (the SRTP C-to-C++ wrapper: `zsrtp_protect`,
  `zsrtp_unprotect`, `zsrtp_protectCtrl`, `zsrtp_unprotectCtrl`);
* `gstzrtpfilter.c` (packet classification on the RTP receive path,
  SSRC learning on the send path, and the timer callbacks).

Buffers are lists of bytes (`List Nat`, each byte read modulo 256 as the
C code reads `guint8`).  The `CryptoContext` / `CryptoContextCtrl`
classes of the SRTP library are fetched by `getzrtp.sh` and are not part
of the repository tree; their operations are modelled from the spec and
carry `Modelled from the spec:` doc comments.  The cipher keystream and
the authentication function are crypto primitives (spec section 4.2:
pure functions over byte buffers) and enter the model as function-valued
fields of the context.
-/

/-- Reads byte `i` of a buffer the way the C code reads a `guint8`:
out-of-range reads are modelled as 0, values are reduced mod 256. -/
def byte (d : List Nat) (i : Nat) : Nat := d.getD i 0 % 256

/-- Maps `g` over a list, passing each element its absolute position,
starting positions at `i`.  Used to express in-place byte transforms. -/
def mapFrom (g : Nat → Nat → Nat) : Nat → List Nat → List Nat
  | _, [] => []
  | i, b :: r => g i b :: mapFrom g (i + 1) r

/-- Applies the keystream byte function `f` by XOR to the region
`[off, off+len)` of the buffer and leaves all other bytes unchanged.
This is the in-place stream-cipher application of `srtpEncrypt`:
the spec (section 4.4) says the payload is XORed with a per-packet
keystream; bytes outside the payload region are untouched. -/
def xorRegion (f : Nat → Nat) (off len : Nat) (data : List Nat) : List Nat :=
  mapFrom (fun i b => if off ≤ i ∧ i < off + len then b ^^^ f (i - off) else b) 0 data

/-- Models the C library function `memcmp` over the first `n` bytes by
its standard left-to-right semantics: returns whether the inspected
byte ranges are equal, together with the number of byte positions the
comparison inspected before it stopped (it stops at the first
difference). -/
def memcmpRun : List Nat → List Nat → Nat → Bool × Nat
  | x :: a, y :: b, n + 1 =>
      if x = y then
        let r := memcmpRun a b n
        (r.1, r.2 + 1)
      else (false, 1)
  | _, _, _ => (true, 0)

/-- Stores a 32-bit value as 4 bytes in network order, as `g_htonl`
followed by a 4-byte store does. -/
def htonl4 (v : Nat) : List Nat :=
  [v / 2 ^ 24 % 256, v / 2 ^ 16 % 256, v / 2 ^ 8 % 256, v % 256]

/-- Models a `GstBuffer` holding one RTP/RTCP packet: the raw bytes plus
the RTP header length as returned by the external GStreamer accessor
`gst_rtp_buffer_get_header_len` (header parsing is GStreamer code,
outside this repository; the wrapper never modifies header bytes, so the
value is carried as an attribute). -/
structure GstBuffer where
  data : List Nat
  headerLen : Nat
  deriving Repr, DecidableEq

/-- Models `gst_rtp_buffer_get_seq`: the 16-bit big-endian sequence
number at bytes 2..3 of the RTP header. -/
def get_seq (b : GstBuffer) : Nat := byte b.data 2 * 256 + byte b.data 3

/-- Models `gst_rtp_buffer_get_ssrc`: the 32-bit big-endian SSRC at
bytes 8..11 of the RTP header. -/
def get_ssrc (b : GstBuffer) : Nat :=
  ((byte b.data 8 * 256 + byte b.data 9) * 256 + byte b.data 10) * 256 + byte b.data 11

/-- Models the sender-SSRC read of the SRTCP code path: the 32-bit
big-endian word at bytes 4..7 of the RTCP header
(`ssrc = g_ntohl(*(guint32*)(data + 4))`). -/
def get_ssrc_rtcp (b : GstBuffer) : Nat :=
  ((byte b.data 4 * 256 + byte b.data 5) * 256 + byte b.data 6) * 256 + byte b.data 7

/-- Models the SRTP `CryptoContext` of the SRTP library (sources fetched
by `getzrtp.sh`, not under the repository tree).  State fields follow
the spec's data model: rollover counter, highest-seen sequence number,
replay-window bitmap, tag and MKI lengths.  `ks` is the per-packet
keystream derived from the session key (arguments: 48-bit packet index,
SSRC, byte position); `auth` computes the authentication tag over the
given bytes and a ROC value.  Both are pure crypto primitives (spec
section 4.2) determined by the master key and salt. -/
structure CryptoContext where
  roc : Nat
  s_l : Nat
  replay_window : Nat
  tagLength : Nat
  mkiLength : Nat
  ks : Nat → Nat → Nat → Nat
  auth : List Nat → Nat → List Nat

/-- Size of the sliding replay window, 64 packets. -/
def REPLAY_WINDOW_SIZE : Nat := 64

/-- Modelled from the spec: `CryptoContext::checkReplay` of the SRTP
library (not under src/).  Per spec section 4.4 the sequence number is
checked against the sliding replay window and the check fails if the
packet was already seen or lies outside (behind) the window; sequence
numbers ahead of the highest seen are accepted. -/
def checkReplay (cc : CryptoContext) (newSeq : Nat) : Bool :=
  if cc.s_l < newSeq then true
  else
    let delta := cc.s_l - newSeq
    if REPLAY_WINDOW_SIZE ≤ delta then false
    else if cc.replay_window.testBit delta then false
    else true

/-- Modelled from the spec: ROC guess of `CryptoContext::guessIndex` of
the SRTP library (not under src/).  Per spec section 4.4 the candidate
ROC is recovered by a sliding-window guess from the last-seen high ROC
and the packet's 16-bit sequence number, handling wraparound ambiguity
in both directions; ROC arithmetic is 32-bit. -/
def guessRoc (cc : CryptoContext) (seq : Nat) : Nat :=
  if cc.s_l < 32768 then
    if cc.s_l + 32768 < seq then (cc.roc + 2 ^ 32 - 1) % 2 ^ 32 else cc.roc % 2 ^ 32
  else
    if seq + 32768 < cc.s_l then (cc.roc + 1) % 2 ^ 32 else cc.roc % 2 ^ 32

/-- Modelled from the spec: `CryptoContext::guessIndex` of the SRTP
library (not under src/): the guessed 48-bit packet index, guessed ROC
in the high 32 bits and the sequence number in the low 16. -/
def guessIndex (cc : CryptoContext) (seq : Nat) : Nat :=
  guessRoc cc seq <<< 16 ||| seq

/-- Modelled from the spec: `CryptoContext::update` of the SRTP library
(not under src/).  Per spec section 4.4, after a packet is accepted the
ROC, the replay-window bitmap and the highest-seen sequence number are
updated: the window slides forward when the accepted index is ahead of
the current maximum and the bit of the accepted packet is marked; the
window bitmap is 64 bits wide. -/
def updateCtx (cc : CryptoContext) (seq : Nat) : CryptoContext :=
  let g := guessRoc cc seq
  let newIdx := g * 65536 + seq
  let curIdx := cc.roc % 2 ^ 32 * 65536 + cc.s_l
  if curIdx < newIdx then
    { cc with
      replay_window := (cc.replay_window <<< (newIdx - curIdx)) % 2 ^ 64 ||| 1
      s_l := seq
      roc := g }
  else
    { cc with replay_window := cc.replay_window ||| 1 <<< (curIdx - newIdx) % 2 ^ 64 }

/-- Keystream application of `CryptoContext::srtpEncrypt` (SRTP library,
not under src/): XORs `payloadlen` bytes starting at the payload offset
with the keystream for the given packet index and SSRC, leaving all
other bytes of the buffer unchanged. -/
def srtpEncrypt (cc : CryptoContext) (data : List Nat) (off len index ssrc : Nat) :
    List Nat :=
  xorRegion (cc.ks index ssrc) off len data

/-- Embeds `zsrtp_protect` of `gstSrtpCWrapper.cpp`.  A NULL crypto
context returns 0.  Otherwise the packet index is built from the stored
ROC and the packet's sequence number, the buffer is grown by the tag
length, the payload (everything after the RTP header, padding included)
is encrypted in place, the authentication tag over the first `length`
bytes (header plus ciphertext) under the stored ROC is appended, and the
ROC is incremented (32-bit) exactly when the sequence number is 0xFFFF.
Returns (return code, updated context, updated buffer). -/
def zsrtp_protect (ctx : Option CryptoContext) (gstBuf : GstBuffer) :
    Int × Option CryptoContext × GstBuffer :=
  match ctx with
  | none => (0, none, gstBuf)
  | some pcc =>
    let length := gstBuf.data.length
    let payloadlen := length - gstBuf.headerLen
    let seqnum := get_seq gstBuf
    let index := pcc.roc <<< 16 ||| seqnum
    let ssrc := get_ssrc gstBuf
    let encData := srtpEncrypt pcc gstBuf.data gstBuf.headerLen payloadlen index ssrc
    let tag := pcc.auth (encData.take length) pcc.roc
    let pcc2 := if seqnum = 0xFFFF then { pcc with roc := (pcc.roc + 1) % 2 ^ 32 } else pcc
    (1, some pcc2, { data := encData ++ tag, headerLen := gstBuf.headerLen })

/-- Tag bytes `zsrtp_unprotect` reads from the received packet: the
`tagLength` bytes at `srtpDataIndex + mkiLength`. -/
def receivedTag (pcc : CryptoContext) (gstBuf : GstBuffer) : List Nat :=
  let srtpDataIndex := gstBuf.data.length - (pcc.tagLength + pcc.mkiLength)
  (gstBuf.data.drop (srtpDataIndex + pcc.mkiLength)).take pcc.tagLength

/-- MAC `zsrtp_unprotect` computes over the received header+ciphertext
(the packet minus tag and MKI) under the guessed ROC. -/
def computedMac (pcc : CryptoContext) (gstBuf : GstBuffer) : List Nat :=
  let srtpDataIndex := gstBuf.data.length - (pcc.tagLength + pcc.mkiLength)
  pcc.auth (gstBuf.data.take srtpDataIndex) (guessIndex pcc (get_seq gstBuf) >>> 16)

/-- Embeds `zsrtp_unprotect` of `gstSrtpCWrapper.cpp`.  A NULL crypto
context returns 0.  Otherwise: the replay check runs first and a failure
returns -2 before anything is touched; then the MAC over header plus
ciphertext under the guessed ROC is compared with the received tag via
`memcmp` and a mismatch returns -1, still before anything is touched;
only then is the payload decrypted with the guessed index, the buffer
shrunk back by the tag length, and the crypto context updated with the
accepted sequence number. -/
def zsrtp_unprotect (ctx : Option CryptoContext) (gstBuf : GstBuffer) :
    Int × Option CryptoContext × GstBuffer :=
  match ctx with
  | none => (0, none, gstBuf)
  | some pcc =>
    let length := gstBuf.data.length
    let srtpDataIndex := length - (pcc.tagLength + pcc.mkiLength)
    let payloadlen := length - gstBuf.headerLen - (pcc.tagLength + pcc.mkiLength)
    let seqnum := get_seq gstBuf
    if ¬ checkReplay pcc seqnum then (-2, some pcc, gstBuf)
    else
      let guessedIndex := guessIndex pcc seqnum
      if ¬ (memcmpRun (receivedTag pcc gstBuf) (computedMac pcc gstBuf) pcc.tagLength).1 then
        (-1, some pcc, gstBuf)
      else
        let ssrc := get_ssrc gstBuf
        let decData := srtpEncrypt pcc gstBuf.data gstBuf.headerLen payloadlen guessedIndex ssrc
        (1, some (updateCtx pcc seqnum),
          { data := decData.take srtpDataIndex, headerLen := gstBuf.headerLen })

/-- Models the SRTCP `CryptoContextCtrl` of the SRTP library (not under
src/): tag and MKI lengths, the crypto primitives, and the receive-side
replay state.  `ksc` is the SRTCP keystream (arguments: 31-bit SRTCP
index, SSRC, byte position); `authc` computes the tag over the given
bytes and the transmitted index word (flag bit included); `s_l` is the
highest received 31-bit SRTCP index and `replay_window` the sliding
window bitmap — per spec section 4.4 SRTCP unprotect performs the same
replay-window check as SRTP, keyed by this index. -/
structure CryptoContextCtrl where
  tagLength : Nat
  mkiLength : Nat
  ksc : Nat → Nat → Nat → Nat
  authc : List Nat → Nat → List Nat
  s_l : Nat
  replay_window : Nat

/-- Models the wrapper state `ZsrtpContextCtrl` of `gstSrtpCWrapper.h`:
the (possibly NULL) SRTCP crypto context together with the 32-bit
`srtcpIndex` counter the wrapper itself maintains
(`zsrtp_CreateWrapperCtrl` starts it at 0). -/
structure ZsrtpContextCtrl where
  srtcp : Option CryptoContextCtrl
  srtcpIndex : Nat

/-- Keystream application of `CryptoContextCtrl::srtcpEncrypt` (SRTP
library, not under src/): XORs the byte range with the keystream for
the given SRTCP index and SSRC. -/
def srtcpEncrypt (pcc : CryptoContextCtrl) (data : List Nat) (off len index ssrc : Nat) :
    List Nat :=
  xorRegion (pcc.ksc index ssrc) off len data

/-- Embeds `zsrtp_protectCtrl` of `gstSrtpCWrapper.cpp`.  A NULL crypto
context returns 0.  Otherwise the buffer is grown by tag length plus 4,
everything from byte 8 on is encrypted under the current `srtcpIndex`,
the index word with the E flag bit (`srtcpIndex | 0x80000000`) is stored
big-endian right after the encrypted payload, the tag over the first
`length` bytes under that index word is appended after it, and finally
`srtcpIndex` is incremented with the flag bit masked off
(`srtcpIndex++; srtcpIndex &= ~0x80000000`, 32-bit arithmetic). -/
def zsrtp_protectCtrl (ctx : ZsrtpContextCtrl) (gstBuf : GstBuffer) :
    Int × ZsrtpContextCtrl × GstBuffer :=
  match ctx.srtcp with
  | none => (0, ctx, gstBuf)
  | some pcc =>
    let length := gstBuf.data.length
    let ssrc := get_ssrc_rtcp gstBuf
    let encData := srtcpEncrypt pcc gstBuf.data 8 (length - 8) ctx.srtcpIndex ssrc
    let encIndex := ctx.srtcpIndex ||| 0x80000000
    let withIndex := encData.take length ++ htonl4 encIndex
    let tag := pcc.authc (withIndex.take length) encIndex
    let newIndex := (ctx.srtcpIndex + 1) % 2 ^ 32 &&& 0x7FFFFFFF
    (1, { ctx with srtcpIndex := newIndex },
      { data := withIndex ++ tag, headerLen := gstBuf.headerLen })

/-- Models `g_ntohl` applied to the 4 bytes at offset `i` of a buffer: a
big-endian 32-bit load, as the SRTCP code reads the index word. -/
def ntohl4At (d : List Nat) (i : Nat) : Nat :=
  ((byte d i * 256 + byte d (i + 1)) * 256 + byte d (i + 2)) * 256 + byte d (i + 3)

/-- Modelled from the spec: `CryptoContextCtrl::checkReplay` of the SRTP
library (not under src/).  Per spec section 4.4, SRTCP unprotect
performs the same sliding-window replay check as SRTP, keyed by the
31-bit SRTCP index instead of the sequence number. -/
def checkReplayCtrl (pcc : CryptoContextCtrl) (newIdx : Nat) : Bool :=
  if pcc.s_l < newIdx then true
  else
    let delta := pcc.s_l - newIdx
    if REPLAY_WINDOW_SIZE ≤ delta then false
    else if pcc.replay_window.testBit delta then false
    else true

/-- Modelled from the spec: `CryptoContextCtrl::update` of the SRTP
library (not under src/).  After an SRTCP packet is accepted, the
highest received index and the 64-bit replay-window bitmap are updated
the same way as for SRTP, keyed by the 31-bit index. -/
def updateCtxCtrl (pcc : CryptoContextCtrl) (newIdx : Nat) : CryptoContextCtrl :=
  if pcc.s_l < newIdx then
    { pcc with
      replay_window := (pcc.replay_window <<< (newIdx - pcc.s_l)) % 2 ^ 64 ||| 1
      s_l := newIdx }
  else
    { pcc with replay_window := pcc.replay_window ||| 1 <<< (pcc.s_l - newIdx) % 2 ^ 64 }

/-- Tag bytes `zsrtp_unprotectCtrl` reads from the received packet: the
`tagLength` bytes at `length - tagLength`. -/
def receivedTagCtrl (pcc : CryptoContextCtrl) (gstBuf : GstBuffer) : List Nat :=
  (gstBuf.data.drop (gstBuf.data.length - pcc.tagLength)).take pcc.tagLength

/-- MAC `zsrtp_unprotectCtrl` computes over the first `payloadLen` bytes
of the received packet under the transmitted index word (E flag bit
included), where `payloadLen` excludes tag, MKI and the 4-byte index. -/
def computedMacCtrl (pcc : CryptoContextCtrl) (gstBuf : GstBuffer) : List Nat :=
  let payloadLen := gstBuf.data.length - (pcc.tagLength + pcc.mkiLength + 4)
  pcc.authc (gstBuf.data.take payloadLen) (ntohl4At gstBuf.data payloadLen)

/-- Embeds `zsrtp_unprotectCtrl` of `gstSrtpCWrapper.cpp`.  A NULL
crypto context returns 0.  Otherwise the index word is read big-endian
from just after the payload, the E flag is masked off
(`encIndex & ~0x80000000`) to obtain the remote index, the replay check
runs first and a failure returns -2 untouched; then the MAC over the
first `payloadLen` bytes under the transmitted index word is compared
with the received tag via `memcmp` and a mismatch returns -1, still
untouched; only then is the body (from byte 8 on) decrypted when the E
flag was set, the buffer shrunk to `payloadLen`, and the crypto context
updated with the remote index. -/
def zsrtp_unprotectCtrl (ctx : ZsrtpContextCtrl) (gstBuf : GstBuffer) :
    Int × ZsrtpContextCtrl × GstBuffer :=
  match ctx.srtcp with
  | none => (0, ctx, gstBuf)
  | some pcc =>
    let length := gstBuf.data.length
    let payloadLen := length - (pcc.tagLength + pcc.mkiLength + 4)
    let encIndex := ntohl4At gstBuf.data payloadLen
    let remoteIndex := encIndex &&& 0x7FFFFFFF
    if ¬ checkReplayCtrl pcc remoteIndex then (-2, ctx, gstBuf)
    else
      if ¬ (memcmpRun (receivedTagCtrl pcc gstBuf) (computedMacCtrl pcc gstBuf)
          pcc.tagLength).1 then
        (-1, ctx, gstBuf)
      else
        let ssrc := get_ssrc_rtcp gstBuf
        let decData := if encIndex &&& 0x80000000 ≠ 0 then
            srtcpEncrypt pcc gstBuf.data 8 (payloadLen - 8) remoteIndex ssrc
          else gstBuf.data
        (1, { ctx with srtcp := some (updateCtxCtrl pcc remoteIndex) },
          { data := decData.take payloadLen, headerLen := gstBuf.headerLen })

/-- Routing outcome of the RTP receive path `gst_zrtp_filter_chain_rtp_up`
of `gstzrtpfilter.c`: a buffer is either forwarded upstream in the clear,
handed to the SRTP receive context for unprotect, or treated as a
candidate ZRTP packet. -/
inductive RtpUpRoute where
  | forwardedClear (buf : GstBuffer)
  | srtpUnprotect (result : Int × Option CryptoContext × GstBuffer)
  | zrtpCandidate

/-- Embeds the routing decision of `gst_zrtp_filter_chain_rtp_up` of
`gstzrtpfilter.c`: if the high nibble of the first byte is not the ZRTP
marker 0x1 the buffer is real (S)RTP — it is pushed upstream unmodified
when no receive crypto context is active and otherwise handed to
`zsrtp_unprotect`; only a buffer whose high nibble is 0x1 continues on
the candidate-ZRTP path. -/
def chain_rtp_up (srtpReceive : Option CryptoContext) (gstBuf : GstBuffer) : RtpUpRoute :=
  if byte gstBuf.data 0 &&& 0xf0 ≠ 0x10 then
    match srtpReceive with
    | none => .forwardedClear gstBuf
    | some cc => .srtpUnprotect (zsrtp_unprotect (some cc) gstBuf)
  else .zrtpCandidate

/-- Embeds the SSRC-learning step of `gst_zrtp_filter_chain_rtp_down` of
`gstzrtpfilter.c`: the stored local SSRC is replaced by the SSRC of the
outbound RTP packet only when no value (hint or learned) is present,
i.e. when it is 0. -/
def learn_ssrc (localSSRC : Nat) (gstBuf : GstBuffer) : Nat :=
  if localSSRC = 0 then get_ssrc gstBuf else localSSRC

/-- Models the timer bookkeeping of the filter: `clockId` is the
`GstClockID` field of the filter object (`none` when cleared), `armed`
is the set of single-shot clock entries currently scheduled in the
system clock, and `nextId` is a fresh-identity supply standing for
`gst_clock_new_single_shot_id` allocations. -/
structure TimerState where
  clockId : Option Nat
  armed : List Nat
  nextId : Nat
  deriving Repr, DecidableEq

/-- Embeds `zrtp_activateTimer` of `gstzrtpfilter.c`: a fresh single-shot
clock id is created and scheduled via `gst_clock_id_wait_async`, and the
`clockId` field is overwritten with it.  The function does not  touch any
previously armed entry: the code has no unschedule call. -/
def zrtp_activateTimer (s : TimerState) : TimerState :=
  { clockId := some s.nextId, armed := s.nextId :: s.armed, nextId := s.nextId + 1 }

/-- Embeds `zrtp_cancelTimer` of `gstzrtpfilter.c`: when a `clockId` is
stored, that entry is unscheduled (`gst_clock_id_unschedule`), released,
and the field cleared; with no stored id the state is untouched. -/
def zrtp_cancelTimer (s : TimerState) : TimerState :=
  match s.clockId with
  | some t => { clockId := none, armed := s.armed.erase t, nextId := s.nextId }
  | none => s

/-- Context evolution of one `zsrtp_protect` call (the wrapper always
returns the context it was given, with the ROC possibly stepped). -/
def protectStep (cc : CryptoContext) (b : GstBuffer) : CryptoContext :=
  ((zsrtp_protect (some cc) b).2.1).getD cc

/-- Context state after a sequence of `zsrtp_protect` calls. -/
def protectAll (cc : CryptoContext) (bufs : List GstBuffer) : CryptoContext :=
  bufs.foldl protectStep cc

/-- Fixture: receive context whose replay window has already recorded
sequence number 5 (highest seen 5, window bit 0 set). -/
def ccReplayW : CryptoContext :=
  ⟨0, 5, 1, 1, 0, fun _ _ _ => 0, fun _ _ => [99]⟩

/-- Fixture: received packet with sequence number 5 (a replay). -/
def bufReplayW : GstBuffer :=
  ⟨[0x80, 0, 0, 5, 0, 0, 0, 0, 0, 0, 0, 0, 7], 12⟩

/-- Fixture: fresh receive context with one-byte tags whose
authentication function always yields tag byte 99. -/
def ccAuthW : CryptoContext :=
  ⟨0, 0, 0, 1, 0, fun _ _ _ => 0, fun _ _ => [99]⟩

/-- Fixture: received packet with sequence number 1 whose trailing tag
byte 7 does not match the computed tag byte 99. -/
def bufAuthW : GstBuffer :=
  ⟨[0x80, 0, 0, 1, 0, 0, 0, 0, 0, 0, 0, 0, 7], 12⟩

/-- Fixture: send/receive context at ROC 0 with two-byte tags, a
nontrivial keystream and a tag derived from input length and ROC. -/
def ccPairW : CryptoContext :=
  ⟨0, 0, 0, 2, 0, fun _ _ p => p + 1, fun d r => [d.length % 256, r % 256]⟩

/-- Fixture: plaintext RTP packet, sequence number 1, SSRC 9, two
payload bytes. -/
def bufRtW : GstBuffer :=
  ⟨[0x80, 0, 0, 1, 0, 0, 0, 0, 0, 0, 0, 9, 10, 20], 12⟩

/-- Fixture: context with zero-length tags for the ROC-evolution
scenario. -/
def ccRocW : CryptoContext :=
  ⟨0, 0, 0, 0, 0, fun _ _ _ => 0, fun _ _ => []⟩

/-- Fixture: outbound packet with sequence number 0xFFFF. -/
def bufSeqFFFF : GstBuffer :=
  ⟨[0x80, 0, 0xFF, 0xFF, 0, 0, 0, 0, 0, 0, 0, 9], 12⟩

/-- Fixture: outbound packet with sequence number 0x0000. -/
def bufSeqZero : GstBuffer :=
  ⟨[0x80, 0, 0, 0, 0, 0, 0, 0, 0, 0, 0, 9], 12⟩

/-- Fixture: receive context just past the wraparound boundary (highest
seen sequence 0xFFFF at ROC 1). -/
def ccWrapW : CryptoContext :=
  ⟨1, 0xFFFF, 1, 0, 0, fun _ _ _ => 0, fun _ _ => []⟩

/-- Fixture: receive context with four-byte tags whose authentication
function always yields tag 9,9,9,9. -/
def ccTagW : CryptoContext :=
  ⟨0, 0, 0, 4, 0, fun _ _ _ => 0, fun _ _ => [9, 9, 9, 9]⟩

/-- Fixture: received packet whose stored tag differs from the computed
tag in its first byte. -/
def bufTagX : GstBuffer :=
  ⟨[0x80, 0, 0, 1, 0, 0, 0, 0, 0, 0, 0, 0, 8, 9, 9, 9], 12⟩

/-- Fixture: received packet whose stored tag differs from the computed
tag only in its last byte. -/
def bufTagY : GstBuffer :=
  ⟨[0x80, 0, 0, 1, 0, 0, 0, 0, 0, 0, 0, 0, 9, 9, 9, 8], 12⟩

/-- Fixture: SRTCP context with two-byte tags. -/
def ccCtrlW : CryptoContextCtrl :=
  ⟨2, 0, fun _ _ _ => 0, fun _ _ => [5, 5], 0, 0⟩

/-- Fixture: RTCP compound packet (sender SSRC 3 at bytes 4..7). -/
def bufCtrlW : GstBuffer :=
  ⟨[0x80, 200, 0, 1, 0, 0, 0, 3, 1, 2, 3, 4], 0⟩

/-- Fixture: SRTCP receive context with four-byte tags whose
authentication function always yields tag 9,9,9,9. -/
def ccTagCtrlW : CryptoContextCtrl :=
  ⟨4, 0, fun _ _ _ => 0, fun _ _ => [9, 9, 9, 9], 0, 0⟩

/-- Fixture: received SRTCP packet (8-byte header, index word with E
flag, then the tag) whose stored tag differs from the computed tag in
its first byte. -/
def bufTagCtrlX : GstBuffer :=
  ⟨[0x80, 200, 0, 1, 0, 0, 0, 3, 0x80, 0, 0, 0, 8, 9, 9, 9], 0⟩

/-- Fixture: received SRTCP packet whose stored tag differs from the
computed tag only in its last byte. -/
def bufTagCtrlY : GstBuffer :=
  ⟨[0x80, 200, 0, 1, 0, 0, 0, 3, 0x80, 0, 0, 0, 9, 9, 9, 8], 0⟩

/-- Fixture: inbound buffer whose first byte has high nibble 0x1 (the
ZRTP marker). -/
def bufZrtpMarkW : GstBuffer :=
  ⟨[0x10, 0, 0, 1, 0, 0, 0, 0, 0, 0, 0, 0], 12⟩

/-- Fixture: outbound RTP packet with SSRC 7. -/
def bufSsrc7W : GstBuffer :=
  ⟨[0x80, 0, 0, 1, 0, 0, 0, 0, 0, 0, 0, 7], 12⟩

theorem mapFrom_length (g : Nat → Nat → Nat) :
    ∀ (i : Nat) (l : List Nat), (mapFrom g i l).length = l.length := by
  intro i l
  induction l generalizing i with
  | nil => rfl
  | cons b r ih => simp [mapFrom, ih]

theorem mapFrom_getD (g : Nat → Nat → Nat) :
    ∀ (i : Nat) (l : List Nat) (j : Nat), j < l.length →
      (mapFrom g i l).getD j 0 = g (i + j) (l.getD j 0) := by
  intro i l
  induction l generalizing i with
  | nil => intro j h; simp at h
  | cons b r ih =>
    intro j h
    cases j with
    | zero => simp [mapFrom]
    | succ j =>
      simp only [mapFrom, List.getD_cons_succ]
      rw [ih (i + 1) j (by simpa using h)]
      ring_nf

theorem mapFrom_append (g : Nat → Nat → Nat) :
    ∀ (i : Nat) (l r : List Nat),
      mapFrom g i (l ++ r) = mapFrom g i l ++ mapFrom g (i + l.length) r := by
  intro i l
  induction l generalizing i with
  | nil => intro r; simp [mapFrom]
  | cons b t ih =>
    intro r
    simp only [List.cons_append, mapFrom, List.length_cons, List.cons.injEq, true_and,
      List.append_eq]
    rw [ih]
    congr 2
    omega

theorem mapFrom_id (g : Nat → Nat → Nat) :
    ∀ (i : Nat) (l : List Nat), (∀ k b, i ≤ k → g k b = b) → mapFrom g i l = l := by
  intro i l
  induction l generalizing i with
  | nil => intro _; rfl
  | cons b r ih =>
    intro h
    simp only [mapFrom, List.cons.injEq]
    exact ⟨h i b le_rfl, ih (i + 1) fun k b hk => h k b (by omega)⟩

theorem mapFrom_mapFrom (g f : Nat → Nat → Nat) :
    ∀ (i : Nat) (l : List Nat),
      mapFrom g i (mapFrom f i l) = mapFrom (fun k b => g k (f k b)) i l := by
  intro i l
  induction l generalizing i with
  | nil => rfl
  | cons b r ih => simp [mapFrom, ih]

theorem xorRegion_length (f : Nat → Nat) (off len : Nat) (d : List Nat) :
    (xorRegion f off len d).length = d.length :=
  mapFrom_length _ 0 d

theorem xorRegion_getD (f : Nat → Nat) (off len : Nat) (d : List Nat) (i : Nat) :
    (xorRegion f off len d).getD i 0 =
      if off ≤ i ∧ i < off + len ∧ i < d.length then d.getD i 0 ^^^ f (i - off)
      else d.getD i 0 := by
  rcases Nat.lt_or_ge i d.length with h | h
  · rw [xorRegion, mapFrom_getD _ 0 d i h, Nat.zero_add]
    by_cases hp : off ≤ i ∧ i < off + len
    · simp [hp, h]
    · simp only [hp, if_false]
      rw [if_neg]
      tauto
  · have h1 : d.getD i 0 = 0 := List.getD_eq_default _ _ h
    have h2 : (xorRegion f off len d).getD i 0 = 0 :=
      List.getD_eq_default _ _ (by rwa [xorRegion_length])
    rw [h1, h2, if_neg]
    intro hc
    omega

theorem xorRegion_append (f : Nat → Nat) (off len : Nat) (l r : List Nat)
    (h : off + len ≤ l.length) :
    xorRegion f off len (l ++ r) = xorRegion f off len l ++ r := by
  unfold xorRegion
  rw [mapFrom_append, Nat.zero_add]
  congr 1
  apply mapFrom_id
  intro k b hk
  rw [if_neg]
  omega

theorem xorRegion_xorRegion (f : Nat → Nat) (off len : Nat) (d : List Nat) :
    xorRegion f off len (xorRegion f off len d) = d := by
  unfold xorRegion
  rw [mapFrom_mapFrom]
  apply mapFrom_id
  intro k b _
  by_cases hp : off ≤ k ∧ k < off + len
  · simp [hp, Nat.xor_assoc]
  · simp [hp]

theorem memcmpRun_self : ∀ (a : List Nat) (n : Nat), (memcmpRun a a n).1 = true := by
  intro a
  induction a with
  | nil => intro n; cases n <;> rfl
  | cons x t ih =>
    intro n
    cases n with
    | zero => rfl
    | succ n => simp [memcmpRun, ih]

theorem memcmpRun_eq_iff :
    ∀ (a b : List Nat) (n : Nat), a.length = n → b.length = n →
      ((memcmpRun a b n).1 = true ↔ a = b) := by
  intro a
  induction a with
  | nil =>
    intro b n ha hb
    have hn : n = 0 := by simpa using ha.symm
    subst hn
    have hb2 : b = [] := List.eq_nil_of_length_eq_zero hb
    subst hb2
    simp [memcmpRun_self]
  | cons x t ih =>
    intro b n ha hb
    cases b with
    | nil => simp at ha hb; omega
    | cons y s =>
      cases n with
      | zero => simp at ha
      | succ n =>
        simp only [List.length_cons] at ha hb
        by_cases hxy : x = y
        · subst hxy
          have h1 : (memcmpRun (x :: t) (x :: s) (n + 1)).1 = (memcmpRun t s n).1 := by
            simp [memcmpRun]
          rw [h1, ih s n (by omega) (by omega)]
          simp
        · simp [memcmpRun, hxy]

theorem lor_shiftRight16 (g s : Nat) (hs : s < 2 ^ 16) : (g <<< 16 ||| s) >>> 16 = g := by
  rw [Nat.shiftLeft_eq, Nat.mul_comm, ← Nat.mul_add_lt_is_or hs,
    Nat.shiftRight_eq_div_pow, Nat.mul_add_div (by norm_num), Nat.div_eq_of_lt hs]
  omega

theorem lor_flag_bit (idx : Nat) (h : idx < 2 ^ 31) : idx ||| 2 ^ 31 = idx + 2 ^ 31 := by
  have h1 : (2 ^ 31 : Nat) = 2 ^ 31 * 1 := by norm_num
  rw [Nat.lor_comm, h1, ← Nat.mul_add_lt_is_or h]
  omega

theorem get_seq_lt (b : GstBuffer) : get_seq b < 2 ^ 16 := by
  have h2 : byte b.data 2 < 256 := Nat.mod_lt _ (by norm_num)
  have h3 : byte b.data 3 < 256 := Nat.mod_lt _ (by norm_num)
  unfold get_seq
  omega

/-- Claim C10: SRTP and SRTCP protect never fail when a crypto context
is active: `zsrtp_protect` and `zsrtp_protectCtrl` return 0 exactly when
the internal crypto-context pointer is NULL and return 1 for every call
with a non-NULL context; there is no error branch in the protect
direction. -/
theorem protect_never_fails (pcc : CryptoContext) (pcctrl : CryptoContextCtrl)
    (idx : Nat) (buf bufc : GstBuffer) :
    (zsrtp_protect none buf).1 = 0 ∧
    (zsrtp_protect (some pcc) buf).1 = 1 ∧
    (zsrtp_protectCtrl ⟨none, idx⟩ bufc).1 = 0 ∧
    (zsrtp_protectCtrl ⟨some pcctrl, idx⟩ bufc).1 = 1 :=
  ⟨rfl, rfl, rfl, rfl⟩

/-- Claim C1: `zsrtp_unprotect` fails with -2 when the replay check on
the packet's sequence number rejects it (already seen or outside the
sliding window), fails with -1 when the tag computed over header plus
ciphertext under the guessed ROC differs from the stored tag, and in
both failure cases returns the crypto context (ROC, replay window,
highest-seen sequence) and the buffer (payload undecrypted) completely
unchanged. -/
theorem unprotect_failure_leaves_state (pcc : CryptoContext) (buf : GstBuffer) :
    (checkReplay pcc (get_seq buf) = false →
      zsrtp_unprotect (some pcc) buf = (-2, some pcc, buf)) ∧
    (checkReplay pcc (get_seq buf) = true →
      (memcmpRun (receivedTag pcc buf) (computedMac pcc buf) pcc.tagLength).1 = false →
      zsrtp_unprotect (some pcc) buf = (-1, some pcc, buf)) := by
  constructor
  · intro h
    simp [zsrtp_unprotect, h]
  · intro h1 h2
    simp [zsrtp_unprotect, h1, h2]

/-- Witness for C1: a replayed packet (sequence 5 already recorded in
the window) is rejected with -2 and a tag mismatch is rejected with -1,
both leaving context and buffer untouched. -/
theorem unprotect_failure_leaves_state_witness :
    zsrtp_unprotect (some ccReplayW) bufReplayW = (-2, some ccReplayW, bufReplayW) ∧
    zsrtp_unprotect (some ccAuthW) bufAuthW = (-1, some ccAuthW, bufAuthW) :=
  ⟨(unprotect_failure_leaves_state ccReplayW bufReplayW).1 (by decide),
   (unprotect_failure_leaves_state ccAuthW bufAuthW).2 (by decide) (by decide)⟩

/-- Claim C3: on the RTP receive path, a buffer whose first byte's high
nibble is not the ZRTP marker 0x1 is forwarded upstream unmodified when
no receive crypto context is active and is handed to `zsrtp_unprotect`
when one is; a buffer is treated as a candidate ZRTP packet exactly when
its high nibble is 0x1. -/
theorem chain_rtp_up_routes (srtpReceive : Option CryptoContext) (buf : GstBuffer) :
    (byte buf.data 0 &&& 0xf0 ≠ 0x10 → srtpReceive = none →
      chain_rtp_up srtpReceive buf = RtpUpRoute.forwardedClear buf) ∧
    (byte buf.data 0 &&& 0xf0 ≠ 0x10 → ∀ cc, srtpReceive = some cc →
      chain_rtp_up srtpReceive buf = RtpUpRoute.srtpUnprotect (zsrtp_unprotect (some cc) buf)) ∧
    (chain_rtp_up srtpReceive buf = RtpUpRoute.zrtpCandidate ↔
      byte buf.data 0 &&& 0xf0 = 0x10) := by
  refine ⟨?_, ?_, ?_⟩
  · intro h hn
    subst hn
    simp [chain_rtp_up, h]
  · intro h cc hc
    subst hc
    simp [chain_rtp_up, h]
  · by_cases h : byte buf.data 0 &&& 0xf0 = 0x10
    · simp [chain_rtp_up, h]
    · cases srtpReceive <;> simp [chain_rtp_up, h]

/-- Witness for C3: a buffer starting 0x80 passes through in the clear
with no context, is unprotected with a context, and a buffer starting
0x10 goes to the ZRTP candidate path. -/
theorem chain_rtp_up_routes_witness :
    chain_rtp_up none bufRtW = RtpUpRoute.forwardedClear bufRtW ∧
    chain_rtp_up (some ccAuthW) bufAuthW =
      RtpUpRoute.srtpUnprotect (zsrtp_unprotect (some ccAuthW) bufAuthW) ∧
    chain_rtp_up none bufZrtpMarkW = RtpUpRoute.zrtpCandidate :=
  ⟨(chain_rtp_up_routes none bufRtW).1 (by decide) rfl,
   (chain_rtp_up_routes (some ccAuthW) bufAuthW).2.1 (by decide) ccAuthW rfl,
   (chain_rtp_up_routes none bufZrtpMarkW).2.2.mpr (by decide)⟩

/-- Counterexample for C9: with a configured nonzero SSRC hint (5), the
code keeps the hint even after an outbound packet with SSRC 7 is
processed — the learned value does not supersede the hint, so the local
SSRC does not equal the SSRC of the outbound traffic. -/
theorem ssrc_hint_not_superseded :
    learn_ssrc 5 bufSsrc7W = 5 ∧ get_ssrc bufSsrc7W = 7 ∧ (5 : Nat) ≠ 7 := by
  decide

/-- Amended C9: the local SSRC is learned from the outbound RTP packet
only when no value is present (stored SSRC 0, i.e. no hint configured);
a nonzero stored value — hint or previously learned — is kept
unchanged. -/
theorem learn_ssrc_only_when_unset (l : Nat) (buf : GstBuffer) :
    (l = 0 → learn_ssrc l buf = get_ssrc buf) ∧ (l ≠ 0 → learn_ssrc l buf = l) := by
  constructor <;> intro h <;> simp [learn_ssrc, h]

/-- Witness for amended C9: with no hint the SSRC is learned; with hint
5 the hint is kept. -/
theorem learn_ssrc_only_when_unset_witness :
    learn_ssrc 0 bufSsrc7W = get_ssrc bufSsrc7W ∧ learn_ssrc 5 bufSsrc7W = 5 :=
  ⟨(learn_ssrc_only_when_unset 0 bufSsrc7W).1 rfl,
   (learn_ssrc_only_when_unset 5 bufSsrc7W).2 (by decide)⟩

/-- Counterexample for C8: arming a timer twice in a row leaves two
armed clock entries — `zrtp_activateTimer` overwrites the stored clock
id without unscheduling the previously armed timer, so arming does not
implicitly cancel and more than one timer can be outstanding. -/
theorem activate_timer_does_not_cancel :
    (zrtp_activateTimer (zrtp_activateTimer ⟨none, [], 0⟩)).armed = [1, 0] ∧
    ¬ (zrtp_activateTimer (zrtp_activateTimer ⟨none, [], 0⟩)).armed.length ≤ 1 := by
  decide

/-- Amended C8: `zrtp_cancelTimer` leaves no armed timer behind provided
the stored clock id is the only armed entry (the state every call site
that alternates cancel and activate maintains); `zrtp_activateTimer`
schedules a fresh entry and overwrites the stored id without cancelling
anything, so it preserves the at-most-one-outstanding-timer invariant
only when no timer is armed when it is called. -/
theorem timer_callbacks_behavior (s : TimerState) :
    (s.armed = s.clockId.toList →
      (zrtp_cancelTimer s).armed = [] ∧ (zrtp_cancelTimer s).clockId = none) ∧
    (zrtp_activateTimer s).armed = s.nextId :: s.armed ∧
    (zrtp_activateTimer s).clockId = some s.nextId := by
  refine ⟨?_, rfl, rfl⟩
  intro h
  cases hc : s.clockId with
  | none =>
    rw [hc] at h
    simp [zrtp_cancelTimer, hc, h]
  | some t =>
    rw [hc] at h
    simp only [Option.toList] at h
    simp [zrtp_cancelTimer, hc, h]

/-- Witness for amended C8: cancelling from a state whose only armed
entry is the stored id clears everything; activating from that state
stacks a second armed entry. -/
theorem timer_callbacks_behavior_witness :
    ((zrtp_cancelTimer ⟨some 3, [3], 4⟩).armed = [] ∧
      (zrtp_cancelTimer ⟨some 3, [3], 4⟩).clockId = none) ∧
    (zrtp_activateTimer ⟨some 3, [3], 4⟩).armed = [4, 3] :=
  ⟨(timer_callbacks_behavior ⟨some 3, [3], 4⟩).1 (by decide),
   (timer_callbacks_behavior ⟨some 3, [3], 4⟩).2.1⟩

/-- Counterexample for C6: the tag comparison in both `zsrtp_unprotect`
and `zsrtp_unprotectCtrl` is the C library `memcmp`, which stops at the
first differing byte: with the stored tag differing from the computed
tag in byte 0 it inspects 1 byte, with the difference in byte 3 it
inspects all 4 — on the SRTP path and on the SRTCP path alike, how many
tag bytes are inspected does depend on where the first differing byte
lies, so the comparison is not constant-time. -/
theorem tag_compare_short_circuits :
    (memcmpRun (receivedTag ccTagW bufTagX) (computedMac ccTagW bufTagX) ccTagW.tagLength).2
        = 1 ∧
    (memcmpRun (receivedTag ccTagW bufTagY) (computedMac ccTagW bufTagY) ccTagW.tagLength).2
        = 4 ∧
    (memcmpRun (receivedTagCtrl ccTagCtrlW bufTagCtrlX) (computedMacCtrl ccTagCtrlW bufTagCtrlX)
        ccTagCtrlW.tagLength).2 = 1 ∧
    (memcmpRun (receivedTagCtrl ccTagCtrlW bufTagCtrlY) (computedMacCtrl ccTagCtrlW bufTagCtrlY)
        ccTagCtrlW.tagLength).2 = 4 ∧
    (1 : Nat) ≠ 4 := by
  decide

/-- Amended C6: in SRTP and SRTCP unprotect the received tag is compared
with the computed tag over the full negotiated tag length in the sense
that the comparison result decides equality of all tag bytes (unprotect
fails exactly when some byte differs), but the comparison is ordinary
`memcmp` and short-circuits at the first differing byte, so it is not
constant-time. -/
theorem tag_compare_decides_equality (pcc : CryptoContext) (pccc : CryptoContextCtrl)
    (buf bufc : GstBuffer)
    (ha : (receivedTag pcc buf).length = pcc.tagLength)
    (hb : (computedMac pcc buf).length = pcc.tagLength)
    (hac : (receivedTagCtrl pccc bufc).length = pccc.tagLength)
    (hbc : (computedMacCtrl pccc bufc).length = pccc.tagLength) :
    ((memcmpRun (receivedTag pcc buf) (computedMac pcc buf) pcc.tagLength).1 = true ↔
      receivedTag pcc buf = computedMac pcc buf) ∧
    ((memcmpRun (receivedTagCtrl pccc bufc) (computedMacCtrl pccc bufc)
        pccc.tagLength).1 = true ↔
      receivedTagCtrl pccc bufc = computedMacCtrl pccc bufc) :=
  ⟨memcmpRun_eq_iff _ _ _ ha hb, memcmpRun_eq_iff _ _ _ hac hbc⟩

/-- Witness for amended C6 at an SRTP packet and an SRTCP packet, both
with four-byte tags. -/
theorem tag_compare_decides_equality_witness :
    ((memcmpRun (receivedTag ccTagW bufTagX) (computedMac ccTagW bufTagX)
        ccTagW.tagLength).1 = true ↔
      receivedTag ccTagW bufTagX = computedMac ccTagW bufTagX) ∧
    ((memcmpRun (receivedTagCtrl ccTagCtrlW bufTagCtrlX) (computedMacCtrl ccTagCtrlW bufTagCtrlX)
        ccTagCtrlW.tagLength).1 = true ↔
      receivedTagCtrl ccTagCtrlW bufTagCtrlX = computedMacCtrl ccTagCtrlW bufTagCtrlX) :=
  tag_compare_decides_equality ccTagW ccTagCtrlW bufTagX bufTagCtrlX
    (by decide) (by decide) (by decide) (by decide)

/-- Claim C7: every `zsrtp_protectCtrl` call stores the current 31-bit
SRTCP index with the top E-flag bit set as the big-endian word right
after the encrypted payload, and steps the stored index by one with the
flag bit masked off, so the stored index stays strictly below 2^31,
increasing monotonically and wrapping to 0 after 2^31 - 1. -/
theorem protectCtrl_index_evolution (pcc : CryptoContextCtrl) (idx : Nat) (buf : GstBuffer)
    (hidx : idx < 2 ^ 31) :
    ((zsrtp_protectCtrl ⟨some pcc, idx⟩ buf).2.2.data.drop buf.data.length).take 4 =
      htonl4 (idx + 2 ^ 31) ∧
    (zsrtp_protectCtrl ⟨some pcc, idx⟩ buf).2.1.srtcpIndex =
      (if idx = 2 ^ 31 - 1 then 0 else idx + 1) ∧
    (zsrtp_protectCtrl ⟨some pcc, idx⟩ buf).2.1.srtcpIndex < 2 ^ 31 := by
  have henc : (srtcpEncrypt pcc buf.data 8 (buf.data.length - 8) idx
      (get_ssrc_rtcp buf)).length = buf.data.length := xorRegion_length _ _ _ _
  have hflag : idx ||| 0x80000000 = idx + 2 ^ 31 := by
    have : (0x80000000 : Nat) = 2 ^ 31 := by norm_num
    rw [this, lor_flag_bit idx hidx]
  have hmask : (idx + 1) % 2 ^ 32 &&& 0x7FFFFFFF =
      (if idx = 2 ^ 31 - 1 then 0 else idx + 1) := by
    have h1 : (idx + 1) % 2 ^ 32 = idx + 1 := Nat.mod_eq_of_lt (by omega)
    have h2 : (0x7FFFFFFF : Nat) = 2 ^ 31 - 1 := by norm_num
    rw [h1, h2, Nat.and_pow_two_sub_one_eq_mod]
    by_cases h : idx = 2 ^ 31 - 1
    · simp [h]
    · rw [if_neg h]
      exact Nat.mod_eq_of_lt (by omega)
  refine ⟨?_, ?_, ?_⟩
  · simp only [zsrtp_protectCtrl]
    generalize hE : srtcpEncrypt pcc buf.data 8 (buf.data.length - 8) idx
      (get_ssrc_rtcp buf) = E
    have hlen : buf.data.length = E.length := by rw [← hE]; exact (xorRegion_length _ _ _ _).symm
    rw [hlen, List.take_length, List.append_assoc, List.drop_left]
    have h4 : (htonl4 (idx ||| 0x80000000)).length = 4 := rfl
    rw [← h4, List.take_left, hflag]
  · simp only [zsrtp_protectCtrl]
    exact hmask
  · simp only [zsrtp_protectCtrl]
    rw [hmask]
    split
    · norm_num
    · omega

/-- Witness for C7 at index 0 with a two-byte-tag context. -/
theorem protectCtrl_index_evolution_witness :
    ((zsrtp_protectCtrl ⟨some ccCtrlW, 0⟩ bufCtrlW).2.2.data.drop bufCtrlW.data.length).take 4 =
      htonl4 (0 + 2 ^ 31) ∧
    (zsrtp_protectCtrl ⟨some ccCtrlW, 0⟩ bufCtrlW).2.1.srtcpIndex =
      (if (0 : Nat) = 2 ^ 31 - 1 then 0 else 0 + 1) ∧
    (zsrtp_protectCtrl ⟨some ccCtrlW, 0⟩ bufCtrlW).2.1.srtcpIndex < 2 ^ 31 :=
  protectCtrl_index_evolution ccCtrlW 0 bufCtrlW (by norm_num)

theorem xorRegion_byte_lt (f : Nat → Nat) (off len : Nat) (d : List Nat) (i : Nat)
    (h : i < off) : byte (xorRegion f off len d) i = byte d i := by
  unfold byte
  rw [xorRegion_getD, if_neg (by omega)]

theorem byte_append_lt (l r : List Nat) (i : Nat) (h : i < l.length) :
    byte (l ++ r) i = byte l i := by
  unfold byte
  rw [List.getD_append _ _ _ _ h]

/-- Claim C4: a `zsrtp_protect` call grows the packet by exactly the
negotiated tag length (zero-length MKI), keeps every header byte in
place, replaces each payload byte (padding included) by its XOR with the
packet keystream, and appends the authentication tag over the first
`length` bytes (header plus ciphertext) at the end. -/
theorem protect_grows_by_tag (pcc : CryptoContext) (buf : GstBuffer)
    (hh : buf.headerLen ≤ buf.data.length)
    (hauth : ∀ d r, (pcc.auth d r).length = pcc.tagLength) :
    (zsrtp_protect (some pcc) buf).2.2.data.length = buf.data.length + pcc.tagLength ∧
    (∀ i, i < buf.headerLen →
      (zsrtp_protect (some pcc) buf).2.2.data.getD i 0 = buf.data.getD i 0) ∧
    (∀ i, buf.headerLen ≤ i → i < buf.data.length →
      (zsrtp_protect (some pcc) buf).2.2.data.getD i 0 =
        buf.data.getD i 0 ^^^
          pcc.ks (pcc.roc <<< 16 ||| get_seq buf) (get_ssrc buf) (i - buf.headerLen)) ∧
    (zsrtp_protect (some pcc) buf).2.2.data.drop buf.data.length =
      pcc.auth ((zsrtp_protect (some pcc) buf).2.2.data.take buf.data.length) pcc.roc := by
  obtain ⟨E, hE⟩ : ∃ E, srtpEncrypt pcc buf.data buf.headerLen
      (buf.data.length - buf.headerLen) (pcc.roc <<< 16 ||| get_seq buf)
      (get_ssrc buf) = E := ⟨_, rfl⟩
  have hElen : E.length = buf.data.length := by
    rw [← hE]; exact xorRegion_length _ _ _ _
  have hEtake : E.take buf.data.length = E := by rw [← hElen, List.take_length]
  have hdata : (zsrtp_protect (some pcc) buf).2.2.data =
      E ++ pcc.auth E pcc.roc := by
    simp only [zsrtp_protect]
    rw [hE, hEtake]
  refine ⟨?_, ?_, ?_, ?_⟩
  · rw [hdata, List.length_append, hElen, hauth]
  · intro i hi
    rw [hdata, List.getD_append _ _ _ _ (by omega), ← hE]
    simp only [srtpEncrypt]
    rw [xorRegion_getD, if_neg (by omega)]
  · intro i h1 h2
    rw [hdata, List.getD_append _ _ _ _ (by omega), ← hE]
    simp only [srtpEncrypt]
    rw [xorRegion_getD, if_pos (by omega)]
  · rw [hdata, ← hElen, List.drop_left, List.take_left]

/-- Witness for C4 on a 14-byte RTP packet with a two-byte tag: the
length grows by 2, header byte 2 is unchanged, payload byte 12 is the
keystream XOR, and the tag sits after byte 14. -/
theorem protect_grows_by_tag_witness :
    (zsrtp_protect (some ccPairW) bufRtW).2.2.data.length =
      bufRtW.data.length + ccPairW.tagLength ∧
    (zsrtp_protect (some ccPairW) bufRtW).2.2.data.getD 2 0 = bufRtW.data.getD 2 0 ∧
    (zsrtp_protect (some ccPairW) bufRtW).2.2.data.getD 12 0 =
      bufRtW.data.getD 12 0 ^^^
        ccPairW.ks (ccPairW.roc <<< 16 ||| get_seq bufRtW) (get_ssrc bufRtW)
          (12 - bufRtW.headerLen) ∧
    (zsrtp_protect (some ccPairW) bufRtW).2.2.data.drop bufRtW.data.length =
      ccPairW.auth ((zsrtp_protect (some ccPairW) bufRtW).2.2.data.take bufRtW.data.length)
        ccPairW.roc :=
  have h := protect_grows_by_tag ccPairW bufRtW (by decide) (fun _ _ => rfl)
  ⟨h.1, h.2.1 2 (by decide), h.2.2.1 12 (by decide) (by decide), h.2.2.2⟩

theorem protectStep_roc (cc : CryptoContext) (b : GstBuffer) :
    (protectStep cc b).roc =
      if get_seq b = 0xFFFF then (cc.roc + 1) % 2 ^ 32 else cc.roc := by
  by_cases h : get_seq b = 0xFFFF <;>
    simp [protectStep, zsrtp_protect, h]

theorem protectAll_roc (bufs : List GstBuffer) :
    ∀ cc : CryptoContext, cc.roc < 2 ^ 32 →
      (protectAll cc bufs).roc =
        (cc.roc + (bufs.map get_seq).count 0xFFFF) % 2 ^ 32 := by
  induction bufs with
  | nil =>
    intro cc h
    simp only [protectAll, List.foldl_nil, List.map_nil, List.count_nil, Nat.add_zero]
    exact (Nat.mod_eq_of_lt h).symm
  | cons b rest ih =>
    intro cc h
    have hstep : protectAll cc (b :: rest) = protectAll (protectStep cc b) rest := rfl
    have hroc := protectStep_roc cc b
    by_cases hb : get_seq b = 0xFFFF
    · rw [if_pos hb] at hroc
      have h2 : (protectStep cc b).roc < 2 ^ 32 := by
        rw [hroc]; exact Nat.mod_lt _ (by norm_num)
      rw [hstep, ih _ h2, hroc]
      have hc : ((b :: rest).map get_seq).count 0xFFFF =
          (rest.map get_seq).count 0xFFFF + 1 := by
        simp [List.count_cons, hb]
      rw [hc, Nat.mod_add_mod]
      congr 1
      omega
    · rw [if_neg hb] at hroc
      have h2 : (protectStep cc b).roc < 2 ^ 32 := by rw [hroc]; exact h
      rw [hstep, ih _ h2, hroc]
      have hc : ((b :: rest).map get_seq).count 0xFFFF =
          (rest.map get_seq).count 0xFFFF := by
        simp [List.count_cons, hb]
      rw [hc]

/-- Claim C5: over a sequence of `zsrtp_protect` calls that crosses the
16-bit wraparound — i.e. contains the sequence number 0xFFFF exactly
once — the ROC is incremented exactly once (32-bit); and on the
receiving side, once the highest seen sequence number is in the upper
half (as after accepting 0xFFFF), the index-guessing procedure used by
`zsrtp_unprotect` recovers the incremented ROC for the post-wraparound
sequence numbers. -/
theorem roc_wraparound (cc : CryptoContext) (bufs : List GstBuffer)
    (hroc : cc.roc < 2 ^ 32)
    (hcross : (bufs.map get_seq).count 0xFFFF = 1) :
    (protectAll cc bufs).roc = (cc.roc + 1) % 2 ^ 32 ∧
    ∀ rcc : CryptoContext, rcc.s_l < 2 ^ 16 → 32768 ≤ rcc.s_l →
      ∀ seq, seq + 32768 < rcc.s_l →
        guessIndex rcc seq >>> 16 = (rcc.roc + 1) % 2 ^ 32 := by
  constructor
  · rw [protectAll_roc bufs cc hroc, hcross]
  · intro rcc h16 hge seq hseq
    have hseqlt : seq < 2 ^ 16 := by omega
    rw [guessIndex, lor_shiftRight16 _ _ hseqlt, guessRoc, if_neg (by omega),
      if_pos hseq]

/-- Witness for C5: protecting packets 0xFFFF then 0x0000 steps the ROC
from 0 to 1, and a receiver that has accepted 0xFFFF at ROC 1 guesses
ROC 2 for sequence 0. -/
theorem roc_wraparound_witness :
    (protectAll ccRocW [bufSeqFFFF, bufSeqZero]).roc = (ccRocW.roc + 1) % 2 ^ 32 ∧
    guessIndex ccWrapW 0 >>> 16 = (ccWrapW.roc + 1) % 2 ^ 32 :=
  have h := roc_wraparound ccRocW [bufSeqFFFF, bufSeqZero] (by decide) (by decide)
  ⟨h.1, h.2 ccWrapW (by decide) (by decide) 0 (by decide)⟩

theorem unprotect_success (pcc : CryptoContext) (gstBuf : GstBuffer)
    (h1 : checkReplay pcc (get_seq gstBuf) = true)
    (h2 : (memcmpRun (receivedTag pcc gstBuf) (computedMac pcc gstBuf)
      pcc.tagLength).1 = true) :
    zsrtp_unprotect (some pcc) gstBuf =
      (1, some (updateCtx pcc (get_seq gstBuf)),
        ⟨(srtpEncrypt pcc gstBuf.data gstBuf.headerLen
            (gstBuf.data.length - gstBuf.headerLen - (pcc.tagLength + pcc.mkiLength))
            (guessIndex pcc (get_seq gstBuf)) (get_ssrc gstBuf)).take
            (gstBuf.data.length - (pcc.tagLength + pcc.mkiLength)),
          gstBuf.headerLen⟩) := by
  simp [zsrtp_unprotect, h1, h2]

/-- Claim C2: with the same master key and salt on both sides (identical
keystream and authentication primitives, equal tag lengths, zero MKI), a
valid plaintext RTP packet run through `zsrtp_protect` and then
`zsrtp_unprotect` comes back exactly as the original packet with return
code 1, and the receiving crypto context after the round trip is the
pre-state updated with the one accepted sequence number (the SRTP
library's ROC/replay-window/highest-seen update).  The receiver is
assumed in sync with the sender: its replay window accepts the sequence
number and its index guess yields the sender's ROC. -/
theorem srtp_roundtrip (scc rcc : CryptoContext) (buf : GstBuffer)
    (hks : rcc.ks = scc.ks) (hau : rcc.auth = scc.auth)
    (htag : rcc.tagLength = scc.tagLength) (hmki : rcc.mkiLength = 0)
    (hauth : ∀ d r, (scc.auth d r).length = scc.tagLength)
    (hh12 : 12 ≤ buf.headerLen) (hh : buf.headerLen ≤ buf.data.length)
    (hrep : checkReplay rcc (get_seq buf) = true)
    (hguess : guessRoc rcc (get_seq buf) = scc.roc) :
    zsrtp_unprotect (some rcc) (zsrtp_protect (some scc) buf).2.2 =
      (1, some (updateCtx rcc (get_seq buf)), buf) := by
  have hseqlt : get_seq buf < 2 ^ 16 := get_seq_lt buf
  obtain ⟨E, hE⟩ : ∃ E, srtpEncrypt scc buf.data buf.headerLen
      (buf.data.length - buf.headerLen) (scc.roc <<< 16 ||| get_seq buf)
      (get_ssrc buf) = E := ⟨_, rfl⟩
  have hElen : E.length = buf.data.length := by
    rw [← hE]; exact xorRegion_length _ _ _ _
  have hEtake : E.take buf.data.length = E := by rw [← hElen, List.take_length]
  obtain ⟨T, hT⟩ : ∃ T, scc.auth E scc.roc = T := ⟨_, rfl⟩
  have hTlen : T.length = scc.tagLength := by rw [← hT]; exact hauth _ _
  have hpb : (zsrtp_protect (some scc) buf).2.2 = ⟨E ++ T, buf.headerLen⟩ := by
    simp only [zsrtp_protect]
    rw [hE, hEtake, hT]
  rw [hpb]
  have hbyte : ∀ i, i < 12 → byte (E ++ T) i = byte buf.data i := by
    intro i hi
    rw [byte_append_lt _ _ _ (by omega), ← hE]
    simp only [srtpEncrypt]
    rw [xorRegion_byte_lt _ _ _ _ _ (by omega)]
  have hseqp : get_seq (⟨E ++ T, buf.headerLen⟩ : GstBuffer) = get_seq buf := by
    show byte (E ++ T) 2 * 256 + byte (E ++ T) 3 = _
    rw [hbyte 2 (by norm_num), hbyte 3 (by norm_num)]
    rfl
  have hssrcp : get_ssrc (⟨E ++ T, buf.headerLen⟩ : GstBuffer) = get_ssrc buf := by
    show ((byte (E ++ T) 8 * 256 + byte (E ++ T) 9) * 256 + byte (E ++ T) 10) * 256 +
        byte (E ++ T) 11 = _
    rw [hbyte 8 (by norm_num), hbyte 9 (by norm_num), hbyte 10 (by norm_num),
      hbyte 11 (by norm_num)]
    rfl
  have hidx : (⟨E ++ T, buf.headerLen⟩ : GstBuffer).data.length -
      (rcc.tagLength + rcc.mkiLength) = buf.data.length := by
    show (E ++ T).length - (rcc.tagLength + rcc.mkiLength) = _
    rw [List.length_append, hElen, hTlen, htag, hmki]
    omega
  have hrt : receivedTag rcc ⟨E ++ T, buf.headerLen⟩ = T := by
    unfold receivedTag
    rw [hidx]
    show ((E ++ T).drop (buf.data.length + rcc.mkiLength)).take rcc.tagLength = T
    rw [hmki, Nat.add_zero, htag, ← hElen, List.drop_left, ← hTlen, List.take_length]
  have hcm : computedMac rcc ⟨E ++ T, buf.headerLen⟩ = T := by
    unfold computedMac
    rw [hidx]
    show rcc.auth ((E ++ T).take buf.data.length)
      (guessIndex rcc (get_seq (⟨E ++ T, buf.headerLen⟩ : GstBuffer)) >>> 16) = T
    rw [hseqp, ← hElen, List.take_left, guessIndex, lor_shiftRight16 _ _ hseqlt, hguess,
      hau, hT]
  rw [unprotect_success rcc ⟨E ++ T, buf.headerLen⟩ (by rw [hseqp]; exact hrep)
      (by rw [hrt, hcm, htag]; exact memcmpRun_self T scc.tagLength)]
  rw [hseqp, hssrcp]
  show (1, some (updateCtx rcc (get_seq buf)),
      (⟨(srtpEncrypt rcc (E ++ T) buf.headerLen
          ((E ++ T).length - buf.headerLen - (rcc.tagLength + rcc.mkiLength))
          (guessIndex rcc (get_seq buf)) (get_ssrc buf)).take
          ((E ++ T).length - (rcc.tagLength + rcc.mkiLength)),
        buf.headerLen⟩ : GstBuffer)) =
    (1, some (updateCtx rcc (get_seq buf)), buf)
  have harith1 : (E ++ T).length - (rcc.tagLength + rcc.mkiLength) = buf.data.length := by
    rw [List.length_append, hElen, hTlen, htag, hmki]
    omega
  have harith2 : (E ++ T).length - buf.headerLen - (rcc.tagLength + rcc.mkiLength) =
      buf.data.length - buf.headerLen := by
    rw [List.length_append, hElen, hTlen, htag, hmki]
    omega
  rw [harith1, harith2]
  have hguessIdx : guessIndex rcc (get_seq buf) = scc.roc <<< 16 ||| get_seq buf := by
    rw [guessIndex, hguess]
  have hdec : srtpEncrypt rcc (E ++ T) buf.headerLen (buf.data.length - buf.headerLen)
      (guessIndex rcc (get_seq buf)) (get_ssrc buf) = buf.data ++ T := by
    rw [hguessIdx]
    simp only [srtpEncrypt, hks]
    rw [xorRegion_append _ _ _ _ _ (by omega)]
    rw [← hE]
    simp only [srtpEncrypt]
    rw [xorRegion_xorRegion]
  rw [hdec, List.take_left]

/-- Witness for C2: a concrete 14-byte RTP packet with sequence number 1
round-trips through protect and unprotect with a shared two-byte-tag
context. -/
theorem srtp_roundtrip_witness :
    zsrtp_unprotect (some ccPairW) (zsrtp_protect (some ccPairW) bufRtW).2.2 =
      (1, some (updateCtx ccPairW (get_seq bufRtW)), bufRtW) :=
  srtp_roundtrip ccPairW ccPairW bufRtW rfl rfl rfl rfl (fun _ _ => rfl)
    (by decide) (by decide) (by decide) (by decide)
